import Mathlib

/-!
# Verification development for the two Go services of this repository

* `Question2/main.go`: the product aggregation service (`handleCategories`,
  `fetchProducts`, `sortProducts`).
* `Question1/main.go`: the sliding-window number service (`handleNumbers`,
  `updateWindow`).

Modelling conventions.

* A Go slice is a `List`.  Where the capacity of a slice matters (the slice
  expression `allProducts[:n]`, whose upper bound is checked against `cap`, not
  `len`), the unused capacity is an explicit argument `spare`.
* `float64` fields of `Product` are decoded from JSON, hence finite; finite
  floats are rational numbers and `<`, `>` on them agree with the order of `ℚ`.
* Go compares strings bytewise; on the valid UTF-8 strings that the JSON decoder
  produces this is the code point order, which is the order of `String`.
* `sort.Slice` belongs to the Go standard library.  It enters as a parameter
  `SliceSorter`, a deterministic routine together with the documented contract of
  the library; `insertionSorter` is a concrete instance.
* The upstream test server is a function from the request that `fetchProducts`
  sends to the outcome of `http.Get` plus JSON decoding.
-/

/-! ## The contract of `sort.Slice` -/

/-- Requirements that the Go documentation puts on a `less` function: a strict
ordering that is transitive and whose negation is transitive as well. -/
structure StrictWeakOrder {α : Type} (less : α → α → Bool) : Prop where
  irrefl : ∀ a, less a a = false
  trans : ∀ a b c, less a b = true → less b c = true → less a c = true
  negTrans : ∀ a b c, less a b = false → less b c = false → less a c = false

/-- A model of `sort.Slice(x, less)`: a deterministic function of the slice and of
`less` that permutes the slice and, when `less` meets the documented
requirements, leaves it in ascending order as determined by `less`. -/
structure SliceSorter (α : Type) where
  sort : (α → α → Bool) → List α → List α
  perm : ∀ less xs, (sort less xs).Perm xs
  sorted : ∀ less xs, StrictWeakOrder less →
    (sort less xs).Pairwise (fun a b => less b a = false)

/-- Inner loop of the library's insertion sort, on the reversed sorted prefix:
`for j := i; j > a && less(j, j-1); j-- { swap(j, j-1) }`. -/
def insertRev {α : Type} (less : α → α → Bool) (x : α) : List α → List α
  | [] => [x]
  | y :: ys => if less x y then y :: insertRev less x ys else x :: y :: ys

/-- The library's insertion sort (what `sort.Slice` runs on short slices). -/
def insertionSort {α : Type} (less : α → α → Bool) (xs : List α) : List α :=
  (xs.foldl (fun rev x => insertRev less x rev) []).reverse

/-- Go's `<` on strings: lexicographic comparison, the order of `String`, through
the decision procedure on character lists. -/
def stringLess (a b : String) : Bool := decide (a.data < b.data)

/-- Go's `<` on finite `float64` values, as a decision on `ℚ`. -/
def ratLess (x y : ℚ) : Bool := decide (x < y)

namespace Question2

/-- The Go struct `Product`. -/
structure Product where
  ID : String
  Name : String
  Price : ℚ
  Company : String
  Category : String
  Rating : ℚ
  Discount : ℚ
deriving DecidableEq

/-- The zero value of `Product`, the content of unused slice capacity. -/
def zeroProduct : Product := ⟨"", "", 0, "", "", 0, 0⟩

/-- The request that `fetchProducts` encodes in the test-server URL. -/
structure SourceRequest where
  company : String
  category : String
  minPrice : ℚ
  maxPrice : ℚ
  n : Int
deriving DecidableEq

/-- Outcome of `http.Get` on the test-server URL: a transport error, or a
response with a status code and the result of decoding its body. -/
inductive HttpOutcome where
  | transportError (msg : String)
  | response (status : Nat) (body : Except String (List Product))

deriving instance DecidableEq for Except

/-- The Go function `fetchProducts`. -/
def fetchProducts (server : SourceRequest → HttpOutcome) (company category : String)
    (n : Int) (minPrice maxPrice : ℚ) : Except String (List Product) :=
  match server ⟨company, category, minPrice, maxPrice, n⟩ with
  | .transportError e => .error ("error fetching products from test server: " ++ e)
  | .response status body =>
    if status ≠ 200 then
      .error ("error fetching products from test server: status code " ++ toString status)
    else
      match body with
      | .error e => .error ("error decoding products from test server response: " ++ e)
      | .ok products => .ok products

/-- The Go function `sortProducts`; `sortBy` and `sortOrder` are the values of
`queryParams.Get`.  `x > y` on strings is `stringLess y x`. -/
def sortProducts (S : SliceSorter Product) (products : List Product)
    (sortBy sortOrder : String) : List Product :=
  if sortBy = "rating" then
    S.sort (fun pi pj =>
      if sortOrder = "asc" then decide (pi.Rating < pj.Rating)
      else decide (pi.Rating > pj.Rating)) products
  else if sortBy = "price" then
    S.sort (fun pi pj =>
      if sortOrder = "asc" then decide (pi.Price < pj.Price)
      else decide (pi.Price > pj.Price)) products
  else if sortBy = "company" then
    S.sort (fun pi pj =>
      if sortOrder = "asc" then stringLess pi.Company pj.Company
      else stringLess pj.Company pi.Company) products
  else if sortBy = "discount" then
    S.sort (fun pi pj =>
      if sortOrder = "asc" then decide (pi.Discount < pj.Discount)
      else decide (pi.Discount > pj.Discount)) products
  else
    S.sort (fun pi pj =>
      if sortOrder = "asc" then stringLess pi.Name pj.Name
      else stringLess pj.Name pi.Name) products

/-- The configured sources of `handleCategories`. -/
def companies : List String := ["AMZ", "FLP", "SNP", "MYN", "AZO"]

/-- Lines 47-50 of `handleCategories`: `nArg` is the result of `strconv.Atoi`
(`none` when it returns an error). -/
def effectiveN (nArg : Option Int) : Int :=
  match nArg with
  | none => 10
  | some n => if n ≤ 0 then 10 else n

/-- The fetch loop of `handleCategories` over the remaining companies, with the
products accumulated so far and the list of companies queried so far.  On the
first failure it stops with the message handed to `http.Error`. -/
def fetchLoop (server : SourceRequest → HttpOutcome) (category : String) (n : Int)
    (minPrice maxPrice : ℚ) :
    List String → List Product → List String → Except String (List Product) × List String
  | [], allProducts, queried => (.ok allProducts, queried)
  | company :: rest, allProducts, queried =>
    match fetchProducts server company category n minPrice maxPrice with
    | .error err =>
      (.error ("Error fetching products from " ++ company ++ ": " ++ err), queried ++ [company])
    | .ok products =>
      fetchLoop server category n minPrice maxPrice rest (allProducts ++ products)
        (queried ++ [company])

/-- The slice expression `xs[:n]` for `0 ≤ n` on a slice of length `xs.length`
and capacity `xs.length + spare` whose unused capacity holds zero values: it
panics (`none`) exactly when `n` exceeds the capacity. -/
def sliceTo (xs : List Product) (spare n : Nat) : Option (List Product) :=
  if n ≤ xs.length then some (xs.take n)
  else if n ≤ xs.length + spare then some (xs ++ List.replicate (n - xs.length) zeroProduct)
  else none

/-- What a run of `handleCategories` does to the response writer. -/
inductive Response where
  | httpError (msg : String) (status : Nat)
  | json (products : List Product)
  | panic
deriving DecidableEq

/-- The parsed query parameters of an aggregation request. -/
structure Query where
  n : Option Int
  minPrice : ℚ
  maxPrice : ℚ
  sortBy : String
  sortOrder : String

/-- Lines 55-68 of `handleCategories`: the merged collection after
`sortProducts`, or the error message, with the companies queried. -/
def rankedProducts (S : SliceSorter Product) (server : SourceRequest → HttpOutcome)
    (categoryName : String) (q : Query) : Except String (List Product) × List String :=
  match fetchLoop server categoryName (effectiveN q.n) q.minPrice q.maxPrice companies [] [] with
  | (.error msg, queried) => (.error msg, queried)
  | (.ok allProducts, queried) => (.ok (sortProducts S allProducts q.sortBy q.sortOrder), queried)

/-- The Go function `handleCategories` from line 45 on (`categoryName` is the
path segment extracted on line 44).  `spare` is the unused capacity of
`allProducts` when it is sliced.  The result is the response together with the
companies that were queried, in order. -/
def handleCategories (S : SliceSorter Product) (server : SourceRequest → HttpOutcome)
    (spare : Nat) (categoryName : String) (q : Query) : Response × List String :=
  match rankedProducts S server categoryName q with
  | (.error msg, queried) => (.httpError msg 500, queried)
  | (.ok allProducts, queried) =>
    match sliceTo allProducts spare (effectiveN q.n).toNat with
    | none => (.panic, queried)
    | some products => (.json products, queried)

/-- Five products of one category, priced 10, 20, 30, 40 and 50. -/
def sampleProducts : List Product :=
  [⟨"1", "a", 10, "AMZ", "p", 1, 0⟩, ⟨"2", "b", 20, "AMZ", "p", 2, 5⟩,
   ⟨"3", "c", 30, "AMZ", "p", 3, 10⟩, ⟨"4", "d", 40, "AMZ", "p", 4, 15⟩,
   ⟨"5", "e", 50, "AMZ", "p", 5, 20⟩]

/-- A test server on which every source answers with status 200: `AMZ` holds
`sampleProducts`, the other sources hold nothing. -/
def sampleServer : SourceRequest → HttpOutcome := fun req =>
  if req.company = "AMZ" then .response 200 (.ok sampleProducts) else .response 200 (.ok [])

/-- A test server on which `AMZ` answers with `sampleProducts` and every other
source answers with status 503. -/
def failingServer : SourceRequest → HttpOutcome := fun req =>
  if req.company = "AMZ" then .response 200 (.ok sampleProducts) else .response 503 (.ok [])

end Question2

namespace Question1

/-- The global `window`. -/
def window : Nat := 10

/-- The Go function `isValidNumberID`. -/
def isValidNumberID (numberID : String) : Bool :=
  numberID = "p" || numberID = "f" || numberID = "e" || numberID = "r"

/-- The Go function `fetchNumbers`. -/
def fetchNumbers (numberID : String) : Except String (List Int) :=
  if numberID = "p" then .ok [2, 3, 5, 7, 11]
  else if numberID = "f" then .ok [0, 1, 1, 2, 3]
  else if numberID = "e" then .ok [2, 4, 6, 8, 10]
  else if numberID = "r" then .ok [7, 3, 9, 5, 1]
  else .error "unsupported number ID"

/-- The Go function `updateWindow`, on the global slice `numbers`. -/
def updateWindow (numbers newNumbers : List Int) : List Int :=
  let numbers := numbers ++ newNumbers
  if numbers.length > window then numbers.drop (numbers.length - window) else numbers

/-- The entries `numbers`, `windowPrevState` and `windowCurrState` of the JSON
object that `handleNumbers` writes (`avg`, a `float64` quotient, is left out). -/
structure WindowResponse where
  numbers : List Int
  windowPrevState : List Int
  windowCurrState : List Int
deriving DecidableEq

/-- What a run of `handleNumbers` does to the response writer. -/
inductive Response where
  | httpError (msg : String) (status : Nat)
  | json (resp : WindowResponse)
  | panic
deriving DecidableEq

/-- The Go function `handleNumbers`, run sequentially: from the global slice
`numbers` and the path suffix `numberID` to the response and the new value of
`numbers`. -/
def handleNumbers (numbers : List Int) (numberID : String) : Response × List Int :=
  if !isValidNumberID numberID then
    (.httpError "Invalid number ID" 400, numbers)
  else
    match fetchNumbers numberID with
    | .error _ => (.httpError "Error fetching numbers from test server" 500, numbers)
    | .ok nums =>
      let numbers := updateWindow numbers nums
      if nums.length ≤ numbers.length then
        (.json ⟨nums, numbers.take (numbers.length - nums.length), numbers⟩, numbers)
      else
        (.panic, numbers)

/-- Window states reachable from the empty window by calls to `handleNumbers`. -/
inductive Reachable : List Int → Prop where
  | init : Reachable []
  | step (numbers : List Int) (numberID : String) :
      Reachable numbers → Reachable (handleNumbers numbers numberID).2

end Question1

/-! ## The insertion sort meets the contract -/

theorem insertRev_perm {α : Type} (less : α → α → Bool) (x : α) (ys : List α) :
    (insertRev less x ys).Perm (x :: ys) := by
  induction ys with
  | nil => simp [insertRev]
  | cons y ys ih =>
    simp only [insertRev]
    split
    · exact (List.Perm.cons y ih).trans (List.Perm.swap x y ys)
    · exact List.Perm.refl _

theorem insertionSort_perm {α : Type} (less : α → α → Bool) (xs : List α) :
    (insertionSort less xs).Perm xs := by
  unfold insertionSort
  have key : ∀ (xs acc : List α),
      (xs.foldl (fun rev x => insertRev less x rev) acc).Perm (xs.reverse ++ acc) := by
    intro xs
    induction xs with
    | nil => intro acc; simp
    | cons x xs ih =>
      intro acc
      simp only [List.foldl_cons, List.reverse_cons, List.append_assoc, List.singleton_append]
      exact (ih _).trans (List.Perm.append_left _ (insertRev_perm less x acc))
  have h := key xs []
  simp only [List.append_nil] at h
  exact (List.reverse_perm _).trans (h.trans (List.reverse_perm _))

theorem insertRev_sorted {α : Type} (less : α → α → Bool) (hless : StrictWeakOrder less)
    (x : α) (ys : List α) (h : ys.Pairwise (fun a b => less a b = false)) :
    (insertRev less x ys).Pairwise (fun a b => less a b = false) := by
  induction ys with
  | nil => simp [insertRev]
  | cons y ys ih =>
    rw [List.pairwise_cons] at h
    simp only [insertRev]
    split
    · rename_i hxy
      rw [List.pairwise_cons]
      refine ⟨?_, ih h.2⟩
      intro w hw
      rcases List.mem_cons.mp ((insertRev_perm less x ys).mem_iff.mp hw) with rfl | hw
      · cases hyw : less y w with
        | false => rfl
        | true =>
          have := hless.trans _ _ _ hxy hyw
          rw [hless.irrefl] at this
          exact absurd this (by simp)
      · exact h.1 w hw
    · rename_i hxy
      have hxy : less x y = false := by simpa using hxy
      rw [List.pairwise_cons]
      refine ⟨?_, List.pairwise_cons.mpr h⟩
      intro w hw
      rcases List.mem_cons.mp hw with rfl | hw
      · exact hxy
      · exact hless.negTrans _ _ _ hxy (h.1 w hw)

theorem insertionSort_sorted {α : Type} (less : α → α → Bool) (xs : List α)
    (hless : StrictWeakOrder less) :
    (insertionSort less xs).Pairwise (fun a b => less b a = false) := by
  unfold insertionSort
  rw [List.pairwise_reverse]
  have key : ∀ (xs acc : List α), acc.Pairwise (fun a b => less a b = false) →
      (xs.foldl (fun rev x => insertRev less x rev) acc).Pairwise
        (fun a b => less a b = false) := by
    intro xs
    induction xs with
    | nil => intro acc h; simpa using h
    | cons x xs ih =>
      intro acc h
      simp only [List.foldl_cons]
      exact ih _ (insertRev_sorted less hless x acc h)
  exact key xs [] List.Pairwise.nil

/-- The library's insertion sort as an instance of the `sort.Slice` contract. -/
def insertionSorter (α : Type) : SliceSorter α where
  sort := insertionSort
  perm := insertionSort_perm
  sorted := insertionSort_sorted

/-! ## Comparison functions used by `sortProducts` -/

theorem stringLess_iff (a b : String) : stringLess a b = true ↔ a < b := by
  simp [stringLess]

theorem stringLess_false_iff (a b : String) : stringLess a b = false ↔ b ≤ a := by
  rw [← not_lt, ← stringLess_iff]
  simp

/-- A comparison that decides `<` on a linearly ordered key meets the
requirements of `sort.Slice`. -/
theorem strictWeakOrder_of_key {α β : Type} [LinearOrder β] (key : α → β)
    (lt : β → β → Bool) (hlt : ∀ x y, lt x y = true ↔ x < y) :
    StrictWeakOrder (fun a b => lt (key a) (key b)) := by
  have hfalse : ∀ x y, lt x y = false ↔ y ≤ x := by
    intro x y
    rw [← not_lt, ← hlt]
    simp
  refine ⟨?_, ?_, ?_⟩
  · intro a
    exact (hfalse _ _).mpr le_rfl
  · intro a b c hab hbc
    exact (hlt _ _).mpr (lt_trans ((hlt _ _).mp hab) ((hlt _ _).mp hbc))
  · intro a b c hab hbc
    exact (hfalse _ _).mpr (le_trans ((hfalse _ _).mp hbc) ((hfalse _ _).mp hab))

/-- The same for the comparison with its arguments exchanged (`>`). -/
theorem strictWeakOrder_of_key_swap {α β : Type} [LinearOrder β] (key : α → β)
    (lt : β → β → Bool) (hlt : ∀ x y, lt x y = true ↔ x < y) :
    StrictWeakOrder (fun a b => lt (key b) (key a)) := by
  have hfalse : ∀ x y, lt x y = false ↔ y ≤ x := by
    intro x y
    rw [← not_lt, ← hlt]
    simp
  refine ⟨?_, ?_, ?_⟩
  · intro a
    exact (hfalse _ _).mpr le_rfl
  · intro a b c hab hbc
    exact (hlt _ _).mpr (lt_trans ((hlt _ _).mp hbc) ((hlt _ _).mp hab))
  · intro a b c hab hbc
    exact (hfalse _ _).mpr (le_trans ((hfalse _ _).mp hab) ((hfalse _ _).mp hbc))

/-- Sorting with `key a < key b` leaves adjacent entries non-decreasing in the
key. -/
theorem sort_chain_asc {α β : Type} [LinearOrder β] (S : SliceSorter α) (key : α → β)
    (lt : β → β → Bool) (hlt : ∀ x y, lt x y = true ↔ x < y) (xs : List α) :
    List.Chain' (fun a b => key a ≤ key b) (S.sort (fun a b => lt (key a) (key b)) xs) := by
  apply List.Pairwise.chain'
  refine (S.sorted _ xs (strictWeakOrder_of_key key lt hlt)).imp ?_
  intro a b h
  have h' : ¬ (key b < key a) := by
    rw [← hlt]
    simpa using h
  exact not_lt.mp h'

/-- Sorting with `key a > key b` leaves adjacent entries non-increasing in the
key. -/
theorem sort_chain_desc {α β : Type} [LinearOrder β] (S : SliceSorter α) (key : α → β)
    (lt : β → β → Bool) (hlt : ∀ x y, lt x y = true ↔ x < y) (xs : List α) :
    List.Chain' (fun a b => key b ≤ key a) (S.sort (fun a b => lt (key b) (key a)) xs) := by
  apply List.Pairwise.chain'
  refine (S.sorted _ xs (strictWeakOrder_of_key_swap key lt hlt)).imp ?_
  intro a b h
  have h' : ¬ (key a < key b) := by
    rw [← hlt]
    simpa using h
  exact not_lt.mp h'

theorem ratLess_iff (x y : ℚ) : ratLess x y = true ↔ x < y := by
  simp [ratLess]

namespace Question2

/-- The comparison of `sortProducts` on a numeric field, ascending. -/
theorem sort_numeric_asc (S : SliceSorter Product) (key : Product → ℚ) (sortOrder : String)
    (h : sortOrder = "asc") (products : List Product) :
    List.Chain' (fun a b => key a ≤ key b)
      (S.sort (fun pi pj =>
        if sortOrder = "asc" then decide (key pi < key pj) else decide (key pi > key pj))
        products) := by
  simp only [if_pos h]
  exact sort_chain_asc S key ratLess ratLess_iff products

/-- The comparison of `sortProducts` on a numeric field, descending. -/
theorem sort_numeric_desc (S : SliceSorter Product) (key : Product → ℚ) (sortOrder : String)
    (h : ¬ sortOrder = "asc") (products : List Product) :
    List.Chain' (fun a b => key b ≤ key a)
      (S.sort (fun pi pj =>
        if sortOrder = "asc" then decide (key pi < key pj) else decide (key pi > key pj))
        products) := by
  simp only [if_neg h]
  exact sort_chain_desc S key ratLess ratLess_iff products

/-- The comparison of `sortProducts` on a string field, ascending. -/
theorem sort_string_asc (S : SliceSorter Product) (key : Product → String) (sortOrder : String)
    (h : sortOrder = "asc") (products : List Product) :
    List.Chain' (fun a b => key a ≤ key b)
      (S.sort (fun pi pj =>
        if sortOrder = "asc" then stringLess (key pi) (key pj) else stringLess (key pj) (key pi))
        products) := by
  simp only [if_pos h]
  exact sort_chain_asc S key stringLess stringLess_iff products

/-- The comparison of `sortProducts` on a string field, descending. -/
theorem sort_string_desc (S : SliceSorter Product) (key : Product → String) (sortOrder : String)
    (h : ¬ sortOrder = "asc") (products : List Product) :
    List.Chain' (fun a b => key b ≤ key a)
      (S.sort (fun pi pj =>
        if sortOrder = "asc" then stringLess (key pi) (key pj) else stringLess (key pj) (key pi))
        products) := by
  simp only [if_neg h]
  exact sort_chain_desc S key stringLess stringLess_iff products

/-- The function `sortProducts` permutes the collection, whatever the key and the
order. -/
theorem sortProducts_perm (S : SliceSorter Product) (products : List Product)
    (sortBy sortOrder : String) : (sortProducts S products sortBy sortOrder).Perm products := by
  unfold sortProducts
  split_ifs <;> exact S.perm _ _

/-- C3: for each of the sort keys name, rating, price, company and discount, the
list that `sortProducts` leaves is a rearrangement of the given product list
(same products, same multiplicities) that is ordered on the corresponding field:
with `sortOrder = "asc"` every adjacent pair is non-decreasing in that field, and
with any other `sortOrder` every adjacent pair is non-increasing. -/
theorem sortProducts_ordered (S : SliceSorter Product) (products : List Product)
    (sortOrder : String) :
    ((sortProducts S products "name" sortOrder).Perm products ∧
      (if sortOrder = "asc" then
        List.Chain' (fun a b => a.Name ≤ b.Name) (sortProducts S products "name" sortOrder)
      else
        List.Chain' (fun a b => b.Name ≤ a.Name) (sortProducts S products "name" sortOrder))) ∧
    ((sortProducts S products "rating" sortOrder).Perm products ∧
      (if sortOrder = "asc" then
        List.Chain' (fun a b => a.Rating ≤ b.Rating) (sortProducts S products "rating" sortOrder)
      else
        List.Chain' (fun a b => b.Rating ≤ a.Rating)
          (sortProducts S products "rating" sortOrder))) ∧
    ((sortProducts S products "price" sortOrder).Perm products ∧
      (if sortOrder = "asc" then
        List.Chain' (fun a b => a.Price ≤ b.Price) (sortProducts S products "price" sortOrder)
      else
        List.Chain' (fun a b => b.Price ≤ a.Price) (sortProducts S products "price" sortOrder))) ∧
    ((sortProducts S products "company" sortOrder).Perm products ∧
      (if sortOrder = "asc" then
        List.Chain' (fun a b => a.Company ≤ b.Company)
          (sortProducts S products "company" sortOrder)
      else
        List.Chain' (fun a b => b.Company ≤ a.Company)
          (sortProducts S products "company" sortOrder))) ∧
    ((sortProducts S products "discount" sortOrder).Perm products ∧
      (if sortOrder = "asc" then
        List.Chain' (fun a b => a.Discount ≤ b.Discount)
          (sortProducts S products "discount" sortOrder)
      else
        List.Chain' (fun a b => b.Discount ≤ a.Discount)
          (sortProducts S products "discount" sortOrder))) := by
  have p1 := sortProducts_perm S products "name" sortOrder
  have p2 := sortProducts_perm S products "rating" sortOrder
  have p3 := sortProducts_perm S products "price" sortOrder
  have p4 := sortProducts_perm S products "company" sortOrder
  have p5 := sortProducts_perm S products "discount" sortOrder
  refine ⟨⟨p1, ?_⟩, ⟨p2, ?_⟩, ⟨p3, ?_⟩, ⟨p4, ?_⟩, ⟨p5, ?_⟩⟩
  · have e : sortProducts S products "name" sortOrder =
        S.sort (fun pi pj =>
          if sortOrder = "asc" then stringLess pi.Name pj.Name
          else stringLess pj.Name pi.Name) products := by
      simp [sortProducts]
    rw [e]
    by_cases h : sortOrder = "asc"
    · rw [if_pos h]
      exact sort_string_asc S (fun p => p.Name) sortOrder h products
    · rw [if_neg h]
      exact sort_string_desc S (fun p => p.Name) sortOrder h products
  · have e : sortProducts S products "rating" sortOrder =
        S.sort (fun pi pj =>
          if sortOrder = "asc" then decide (pi.Rating < pj.Rating)
          else decide (pi.Rating > pj.Rating)) products := by
      simp [sortProducts]
    rw [e]
    by_cases h : sortOrder = "asc"
    · rw [if_pos h]
      exact sort_numeric_asc S (fun p => p.Rating) sortOrder h products
    · rw [if_neg h]
      exact sort_numeric_desc S (fun p => p.Rating) sortOrder h products
  · have e : sortProducts S products "price" sortOrder =
        S.sort (fun pi pj =>
          if sortOrder = "asc" then decide (pi.Price < pj.Price)
          else decide (pi.Price > pj.Price)) products := by
      simp [sortProducts]
    rw [e]
    by_cases h : sortOrder = "asc"
    · rw [if_pos h]
      exact sort_numeric_asc S (fun p => p.Price) sortOrder h products
    · rw [if_neg h]
      exact sort_numeric_desc S (fun p => p.Price) sortOrder h products
  · have e : sortProducts S products "company" sortOrder =
        S.sort (fun pi pj =>
          if sortOrder = "asc" then stringLess pi.Company pj.Company
          else stringLess pj.Company pi.Company) products := by
      simp [sortProducts]
    rw [e]
    by_cases h : sortOrder = "asc"
    · rw [if_pos h]
      exact sort_string_asc S (fun p => p.Company) sortOrder h products
    · rw [if_neg h]
      exact sort_string_desc S (fun p => p.Company) sortOrder h products
  · have e : sortProducts S products "discount" sortOrder =
        S.sort (fun pi pj =>
          if sortOrder = "asc" then decide (pi.Discount < pj.Discount)
          else decide (pi.Discount > pj.Discount)) products := by
      simp [sortProducts]
    rw [e]
    by_cases h : sortOrder = "asc"
    · rw [if_pos h]
      exact sort_numeric_asc S (fun p => p.Discount) sortOrder h products
    · rw [if_neg h]
      exact sort_numeric_desc S (fun p => p.Discount) sortOrder h products

/-- C7: for every `sortOrder` other than the literal `"asc"` (the empty value and
misspellings included) and every sort key, `sortProducts` gives the same list as
for `sortOrder = "desc"`, and the comparison handed to `sort.Slice` is the
descending one (`>` on the field of the key). -/
theorem sortProducts_not_asc_eq_desc (S : SliceSorter Product) (products : List Product)
    (sortBy sortOrder : String) (h : sortOrder ≠ "asc") :
    sortProducts S products sortBy sortOrder = sortProducts S products sortBy "desc" ∧
    sortProducts S products sortBy sortOrder =
      (if sortBy = "rating" then
        S.sort (fun pi pj => decide (pi.Rating > pj.Rating)) products
      else if sortBy = "price" then
        S.sort (fun pi pj => decide (pi.Price > pj.Price)) products
      else if sortBy = "company" then
        S.sort (fun pi pj => stringLess pj.Company pi.Company) products
      else if sortBy = "discount" then
        S.sort (fun pi pj => decide (pi.Discount > pj.Discount)) products
      else
        S.sort (fun pi pj => stringLess pj.Name pi.Name) products) := by
  have hd : ¬ ("desc" = "asc") := by decide
  simp only [sortProducts, if_neg h, if_neg hd, and_self]

theorem sortProducts_not_asc_eq_desc_witness :
    "ASC" ≠ "asc" ∧
    (sortProducts (insertionSorter Product) sampleProducts "price" "ASC" =
        sortProducts (insertionSorter Product) sampleProducts "price" "desc" ∧
      sortProducts (insertionSorter Product) sampleProducts "price" "ASC" =
        (if "price" = "rating" then
          (insertionSorter Product).sort (fun pi pj => decide (pi.Rating > pj.Rating))
            sampleProducts
        else if "price" = "price" then
          (insertionSorter Product).sort (fun pi pj => decide (pi.Price > pj.Price))
            sampleProducts
        else if "price" = "company" then
          (insertionSorter Product).sort (fun pi pj => stringLess pj.Company pi.Company)
            sampleProducts
        else if "price" = "discount" then
          (insertionSorter Product).sort (fun pi pj => decide (pi.Discount > pj.Discount))
            sampleProducts
        else
          (insertionSorter Product).sort (fun pi pj => stringLess pj.Name pi.Name)
            sampleProducts)) :=
  ⟨by decide, sortProducts_not_asc_eq_desc _ _ _ _ (by decide)⟩

/-- C8: for every `sortBy` that is none of `"rating"`, `"price"`, `"company"`,
`"discount"` (the empty value and `"name"` included), `sortProducts` orders the
list by the name field, exactly as for `sortBy = "name"`. -/
theorem sortProducts_default_eq_name (S : SliceSorter Product) (products : List Product)
    (sortBy sortOrder : String)
    (h : sortBy ≠ "rating" ∧ sortBy ≠ "price" ∧ sortBy ≠ "company" ∧ sortBy ≠ "discount") :
    sortProducts S products sortBy sortOrder = sortProducts S products "name" sortOrder ∧
    sortProducts S products sortBy sortOrder =
      S.sort (fun pi pj =>
        if sortOrder = "asc" then stringLess pi.Name pj.Name
        else stringLess pj.Name pi.Name) products := by
  obtain ⟨h1, h2, h3, h4⟩ := h
  have n1 : ¬ ("name" = "rating") := by decide
  have n2 : ¬ ("name" = "price") := by decide
  have n3 : ¬ ("name" = "company") := by decide
  have n4 : ¬ ("name" = "discount") := by decide
  simp only [sortProducts, if_neg h1, if_neg h2, if_neg h3, if_neg h4, if_neg n1, if_neg n2,
    if_neg n3, if_neg n4, and_self]

theorem sortProducts_default_eq_name_witness :
    ("" ≠ "rating" ∧ "" ≠ "price" ∧ "" ≠ "company" ∧ "" ≠ "discount") ∧
    (sortProducts (insertionSorter Product) sampleProducts "" "asc" =
        sortProducts (insertionSorter Product) sampleProducts "name" "asc" ∧
      sortProducts (insertionSorter Product) sampleProducts "" "asc" =
        (insertionSorter Product).sort (fun pi pj =>
          if "asc" = "asc" then stringLess pi.Name pj.Name
          else stringLess pj.Name pi.Name) sampleProducts) :=
  ⟨by decide, sortProducts_default_eq_name _ _ _ _ (by decide)⟩

/-! ## The fetch loop -/

theorem fetchLoop_ok (server : SourceRequest → HttpOutcome) (category : String) (n : Int)
    (minPrice maxPrice : ℚ) (res : String → List Product) (cs : List String) :
    (∀ c ∈ cs, fetchProducts server c category n minPrice maxPrice = .ok (res c)) →
    ∀ (allProducts : List Product) (queried : List String),
      fetchLoop server category n minPrice maxPrice cs allProducts queried =
        (.ok (cs.foldl (fun acc c => acc ++ res c) allProducts), queried ++ cs) := by
  induction cs with
  | nil => intro _ allProducts queried; simp [fetchLoop]
  | cons c cs ih =>
    intro h allProducts queried
    have hc := h c (List.mem_cons_self _ _)
    have hcs : ∀ d ∈ cs, fetchProducts server d category n minPrice maxPrice = .ok (res d) :=
      fun d hd => h d (List.mem_cons_of_mem _ hd)
    simp only [fetchLoop, hc, List.foldl_cons]
    rw [ih hcs]
    simp

theorem fetchLoop_fail (server : SourceRequest → HttpOutcome) (category : String) (n : Int)
    (minPrice maxPrice : ℚ) (pre : List String) (c : String) (post : List String) (e : String)
    (hc : fetchProducts server c category n minPrice maxPrice = .error e) :
    (∀ d ∈ pre, ∃ r, fetchProducts server d category n minPrice maxPrice = .ok r) →
    ∀ (allProducts : List Product) (queried : List String),
      fetchLoop server category n minPrice maxPrice (pre ++ c :: post) allProducts queried =
        (.error ("Error fetching products from " ++ c ++ ": " ++ e), queried ++ pre ++ [c]) := by
  induction pre with
  | nil => intro _ allProducts queried; simp [fetchLoop, hc]
  | cons d pre ih =>
    intro h allProducts queried
    obtain ⟨r, hd⟩ := h d (List.mem_cons_self _ _)
    have hpre : ∀ d' ∈ pre, ∃ r, fetchProducts server d' category n minPrice maxPrice = .ok r :=
      fun d' hd' => h d' (List.mem_cons_of_mem _ hd')
    have hstep : fetchLoop server category n minPrice maxPrice (d :: pre ++ c :: post)
        allProducts queried =
        fetchLoop server category n minPrice maxPrice (pre ++ c :: post) (allProducts ++ r)
          (queried ++ [d]) := by
      simp only [List.cons_append, fetchLoop, hd]
      rfl
    rw [hstep, ih hpre]
    simp

/-- A list with a failing source splits at its first failing source. -/
theorem first_failure (server : SourceRequest → HttpOutcome) (category : String) (n : Int)
    (minPrice maxPrice : ℚ) (cs : List String) :
    (∃ c ∈ cs, ∃ e, fetchProducts server c category n minPrice maxPrice = .error e) →
    ∃ pre c post e, cs = pre ++ c :: post ∧
      (∀ d ∈ pre, ∃ r, fetchProducts server d category n minPrice maxPrice = .ok r) ∧
      fetchProducts server c category n minPrice maxPrice = .error e := by
  induction cs with
  | nil => rintro ⟨c, hc, _⟩; simp at hc
  | cons c cs ih =>
    rintro ⟨c', hc', e', he'⟩
    cases hfc : fetchProducts server c category n minPrice maxPrice with
    | error e => exact ⟨[], c, cs, e, rfl, by simp, hfc⟩
    | ok r =>
      have hmem : c' ∈ cs := by
        rcases List.mem_cons.mp hc' with rfl | hmem
        · rw [hfc] at he'; cases he'
        · exact hmem
      obtain ⟨pre, d, post, e, hsplit, hpre, hd⟩ := ih ⟨c', hmem, e', he'⟩
      refine ⟨c :: pre, d, post, e, by rw [hsplit]; rfl, ?_, hd⟩
      intro x hx
      rcases List.mem_cons.mp hx with rfl | hx
      · exact ⟨r, hfc⟩
      · exact hpre x hx

/-- The error of `fetchProducts` carries the underlying cause: the transport
error, the status code, or the decoding error. -/
theorem fetchProducts_error (server : SourceRequest → HttpOutcome) (company category : String)
    (n : Int) (minPrice maxPrice : ℚ) (e : String)
    (h : fetchProducts server company category n minPrice maxPrice = .error e) :
    (∃ m, server ⟨company, category, minPrice, maxPrice, n⟩ = .transportError m ∧
      e = "error fetching products from test server: " ++ m) ∨
    (∃ status body, server ⟨company, category, minPrice, maxPrice, n⟩ = .response status body ∧
      status ≠ 200 ∧
      e = "error fetching products from test server: status code " ++ toString status) ∨
    (∃ m, server ⟨company, category, minPrice, maxPrice, n⟩ = .response 200 (.error m) ∧
      e = "error decoding products from test server response: " ++ m) := by
  unfold fetchProducts at h
  cases hs : server ⟨company, category, minPrice, maxPrice, n⟩ with
  | transportError m =>
    rw [hs] at h
    simp only [Except.error.injEq] at h
    exact Or.inl ⟨m, rfl, h.symm⟩
  | response status body =>
    rw [hs] at h
    by_cases hst : status = 200
    · subst hst
      cases body with
      | error m =>
        simp only [ne_eq, not_true_eq_false, if_false, Except.error.injEq] at h
        exact Or.inr (Or.inr ⟨m, rfl, h.symm⟩)
      | ok r => simp at h
    · simp only [ne_eq, hst, not_false_eq_true, if_true, Except.error.injEq] at h
      exact Or.inr (Or.inl ⟨status, body, rfl, hst, h.symm⟩)

/-! ## `handleCategories` -/

theorem effectiveN_pos (nArg : Option Int) : 0 < effectiveN nArg := by
  unfold effectiveN
  cases nArg with
  | none => decide
  | some n =>
    by_cases h : n ≤ 0
    · simp [h]
    · simp only [h, if_false]
      omega

/-- When every source succeeds, the merged collection is the concatenation of
the five results in configured order and all five sources are queried. -/
theorem fetchLoop_companies (server : SourceRequest → HttpOutcome) (category : String) (n : Int)
    (minPrice maxPrice : ℚ) (res : String → List Product)
    (h : ∀ c ∈ companies, fetchProducts server c category n minPrice maxPrice = .ok (res c)) :
    fetchLoop server category n minPrice maxPrice companies [] [] =
      (.ok (res "AMZ" ++ res "FLP" ++ res "SNP" ++ res "MYN" ++ res "AZO"), companies) := by
  rw [fetchLoop_ok server category n minPrice maxPrice res companies h [] []]
  simp [companies]

/-- C4: if at least one of the five configured sources fails, `handleCategories`
answers with an internal error (status 500) whose message names the first failing
source in configured order followed by the error of `fetchProducts`, which holds
the underlying cause; the response is no product list, and the sources queried
are exactly those up to and including the failing one. -/
theorem handleCategories_source_failure (S : SliceSorter Product)
    (server : SourceRequest → HttpOutcome) (spare : Nat) (categoryName : String) (q : Query)
    (h : ∃ c ∈ companies, ∃ e,
      fetchProducts server c categoryName (effectiveN q.n) q.minPrice q.maxPrice = .error e) :
    ∃ pre c post e, companies = pre ++ c :: post ∧
      (∀ d ∈ pre, ∃ r,
        fetchProducts server d categoryName (effectiveN q.n) q.minPrice q.maxPrice = .ok r) ∧
      fetchProducts server c categoryName (effectiveN q.n) q.minPrice q.maxPrice = .error e ∧
      ((∃ m, server ⟨c, categoryName, q.minPrice, q.maxPrice, effectiveN q.n⟩ =
            .transportError m ∧
          e = "error fetching products from test server: " ++ m) ∨
        (∃ status body, server ⟨c, categoryName, q.minPrice, q.maxPrice, effectiveN q.n⟩ =
            .response status body ∧ status ≠ 200 ∧
          e = "error fetching products from test server: status code " ++ toString status) ∨
        (∃ m, server ⟨c, categoryName, q.minPrice, q.maxPrice, effectiveN q.n⟩ =
            .response 200 (.error m) ∧
          e = "error decoding products from test server response: " ++ m)) ∧
      handleCategories S server spare categoryName q =
        (.httpError ("Error fetching products from " ++ c ++ ": " ++ e) 500, pre ++ [c]) ∧
      (∀ products, (handleCategories S server spare categoryName q).1 ≠ .json products) := by
  obtain ⟨pre, c, post, e, hsplit, hpre, hc⟩ :=
    first_failure server categoryName (effectiveN q.n) q.minPrice q.maxPrice companies h
  have hloop := fetchLoop_fail server categoryName (effectiveN q.n) q.minPrice q.maxPrice
    pre c post e hc hpre [] []
  rw [← hsplit] at hloop
  have hres : handleCategories S server spare categoryName q =
      (.httpError ("Error fetching products from " ++ c ++ ": " ++ e) 500, pre ++ [c]) := by
    simp only [handleCategories, rankedProducts, hloop, List.nil_append]
  refine ⟨pre, c, post, e, hsplit, hpre, hc,
    fetchProducts_error server c categoryName _ _ _ e hc, hres, ?_⟩
  intro products
  rw [hres]
  simp

theorem handleCategories_source_failure_witness :
    (∃ c ∈ companies, ∃ e,
      fetchProducts failingServer c "p" (effectiveN (some 5)) 15 35 = .error e) ∧
    ∃ pre c post e, companies = pre ++ c :: post ∧
      (∀ d ∈ pre, ∃ r, fetchProducts failingServer d "p" (effectiveN (some 5)) 15 35 = .ok r) ∧
      fetchProducts failingServer c "p" (effectiveN (some 5)) 15 35 = .error e ∧
      ((∃ m, failingServer ⟨c, "p", 15, 35, effectiveN (some 5)⟩ = .transportError m ∧
          e = "error fetching products from test server: " ++ m) ∨
        (∃ status body, failingServer ⟨c, "p", 15, 35, effectiveN (some 5)⟩ =
            .response status body ∧ status ≠ 200 ∧
          e = "error fetching products from test server: status code " ++ toString status) ∨
        (∃ m, failingServer ⟨c, "p", 15, 35, effectiveN (some 5)⟩ = .response 200 (.error m) ∧
          e = "error decoding products from test server response: " ++ m)) ∧
      handleCategories (insertionSorter Product) failingServer 0 "p" ⟨some 5, 15, 35, "", ""⟩ =
        (.httpError ("Error fetching products from " ++ c ++ ": " ++ e) 500, pre ++ [c]) ∧
      (∀ products,
        (handleCategories (insertionSorter Product) failingServer 0 "p"
          ⟨some 5, 15, 35, "", ""⟩).1 ≠ .json products) :=
  ⟨⟨"FLP", by decide, "error fetching products from test server: status code 503", by decide⟩,
    handleCategories_source_failure (insertionSorter Product) failingServer 0 "p"
      ⟨some 5, 15, 35, "", ""⟩
      ⟨"FLP", by decide, "error fetching products from test server: status code 503",
        by decide⟩⟩

/-- C5: when all five configured sources succeed, the collection that
`handleCategories` holds after merging is the concatenation of the five results,
and after ranking (before the top-N slice) it is a permutation of that
concatenation: every product of every source occurs in it with the same
multiplicity and nothing else does; `sortProducts` itself permutes any list. -/
theorem rankedProducts_perm (S : SliceSorter Product) (server : SourceRequest → HttpOutcome)
    (categoryName : String) (q : Query) (res : String → List Product)
    (h : ∀ c ∈ companies,
      fetchProducts server c categoryName (effectiveN q.n) q.minPrice q.maxPrice = .ok (res c)) :
    fetchLoop server categoryName (effectiveN q.n) q.minPrice q.maxPrice companies [] [] =
      (.ok (res "AMZ" ++ res "FLP" ++ res "SNP" ++ res "MYN" ++ res "AZO"), companies) ∧
    (∃ ranked, rankedProducts S server categoryName q = (.ok ranked, companies) ∧
      ranked.Perm (res "AMZ" ++ res "FLP" ++ res "SNP" ++ res "MYN" ++ res "AZO") ∧
      ∀ p, ranked.count p =
        (res "AMZ" ++ res "FLP" ++ res "SNP" ++ res "MYN" ++ res "AZO").count p) ∧
    (∀ products sortBy sortOrder, (sortProducts S products sortBy sortOrder).Perm products) := by
  have hloop := fetchLoop_companies server categoryName (effectiveN q.n) q.minPrice q.maxPrice
    res h
  refine ⟨hloop, ⟨_, ?_, sortProducts_perm S _ q.sortBy q.sortOrder, ?_⟩,
    fun products sortBy sortOrder => sortProducts_perm S products sortBy sortOrder⟩
  · simp only [rankedProducts, hloop]
  · intro p
    exact (sortProducts_perm S _ q.sortBy q.sortOrder).count_eq p

theorem rankedProducts_perm_witness :
    (∀ c ∈ companies,
      fetchProducts sampleServer c "p" (effectiveN (some 5)) 15 35 =
        .ok ((fun c => if c = "AMZ" then sampleProducts else []) c)) ∧
    (fetchLoop sampleServer "p" (effectiveN (some 5)) 15 35 companies [] [] =
      (.ok (sampleProducts ++ [] ++ [] ++ [] ++ []), companies) ∧
    (∃ ranked, rankedProducts (insertionSorter Product) sampleServer "p"
        ⟨some 5, 15, 35, "price", "asc"⟩ = (.ok ranked, companies) ∧
      ranked.Perm (sampleProducts ++ [] ++ [] ++ [] ++ []) ∧
      ∀ p, ranked.count p = (sampleProducts ++ [] ++ [] ++ [] ++ []).count p) ∧
    (∀ products sortBy sortOrder,
      (sortProducts (insertionSorter Product) products sortBy sortOrder).Perm products)) :=
  ⟨by decide,
    rankedProducts_perm (insertionSorter Product) sampleServer "p"
      ⟨some 5, 15, 35, "price", "asc"⟩ (fun c => if c = "AMZ" then sampleProducts else [])
      (by decide)⟩

/-- C6: for a ranked collection and a count `n` (after defaulting) with
`0 < n ≤` the number of ranked products, `handleCategories` returns exactly the
first `n` entries of the ranked collection, in ranked order; the result holds `n`
products, hence at most `n`. -/
theorem handleCategories_top_n (S : SliceSorter Product) (server : SourceRequest → HttpOutcome)
    (spare : Nat) (categoryName : String) (q : Query) (ranked : List Product)
    (queried : List String) (n : Nat)
    (hr : rankedProducts S server categoryName q = (.ok ranked, queried))
    (hq : effectiveN q.n = (n : Int)) (_hpos : 0 < n) (hn : n ≤ ranked.length) :
    handleCategories S server spare categoryName q = (.json (ranked.take n), queried) ∧
    (ranked.take n).length = n ∧ (ranked.take n).length ≤ n ∧
    ∀ i (hi : i < (ranked.take n).length), ranked[i]? = some ((ranked.take n)[i]) := by
  have hlen : (ranked.take n).length = n := by
    rw [List.length_take]
    exact Nat.min_eq_left hn
  refine ⟨?_, hlen, le_of_eq hlen, ?_⟩
  · simp only [handleCategories, hr, hq, Int.toNat_ofNat, sliceTo, if_pos hn]
  · intro i hi
    rw [List.getElem_take]
    rw [List.length_take] at hi
    have hi' : i < ranked.length := lt_of_lt_of_le hi (Nat.min_le_right _ _)
    exact List.getElem?_eq_getElem hi'

theorem handleCategories_top_n_witness :
    (rankedProducts (insertionSorter Product) sampleServer "p" ⟨some 2, 0, 0, "price", "asc"⟩ =
      (.ok sampleProducts, companies) ∧
      effectiveN (some 2) = ((2 : Nat) : Int) ∧ 0 < 2 ∧ 2 ≤ sampleProducts.length) ∧
    (handleCategories (insertionSorter Product) sampleServer 0 "p"
        ⟨some 2, 0, 0, "price", "asc"⟩ = (.json (sampleProducts.take 2), companies) ∧
      (sampleProducts.take 2).length = 2 ∧ (sampleProducts.take 2).length ≤ 2 ∧
      ∀ i (hi : i < (sampleProducts.take 2).length),
        sampleProducts[i]? = some ((sampleProducts.take 2)[i])) :=
  ⟨⟨by decide, by decide, by decide, by decide⟩,
    handleCategories_top_n (insertionSorter Product) sampleServer 0 "p"
      ⟨some 2, 0, 0, "price", "asc"⟩ sampleProducts companies 2 (by decide) (by decide)
      (by decide) (by decide)⟩

/-- C2, as stated, fails: with the five sample products priced 10 to 50 from one
source, `minPrice = 15`, `maxPrice = 35` and `n = 5`, all sources succeed and
`handleCategories` returns all five products, among them those priced 10, 40 and
50, not just those priced 20 and 30. -/
theorem handleCategories_returns_out_of_range :
    (∀ c ∈ companies, fetchProducts sampleServer c "p" 5 15 35 =
      .ok (if c = "AMZ" then sampleProducts else [])) ∧
    (handleCategories (insertionSorter Product) sampleServer 0 "p"
        ⟨some 5, 15, 35, "", ""⟩).1 =
      .json [⟨"5", "e", 50, "AMZ", "p", 5, 20⟩, ⟨"4", "d", 40, "AMZ", "p", 4, 15⟩,
        ⟨"3", "c", 30, "AMZ", "p", 3, 10⟩, ⟨"2", "b", 20, "AMZ", "p", 2, 5⟩,
        ⟨"1", "a", 10, "AMZ", "p", 1, 0⟩] ∧
    ¬ ∀ p ∈ ([⟨"5", "e", 50, "AMZ", "p", 5, 20⟩, ⟨"4", "d", 40, "AMZ", "p", 4, 15⟩,
        ⟨"3", "c", 30, "AMZ", "p", 3, 10⟩, ⟨"2", "b", 20, "AMZ", "p", 2, 5⟩,
        ⟨"1", "a", 10, "AMZ", "p", 1, 0⟩] : List Product), (15 : ℚ) ≤ p.Price ∧ p.Price ≤ 35 := by
  refine ⟨by decide, by decide, by decide⟩

/-- C2, amended: `handleCategories` has no price filter of its own; `minPrice` and
`maxPrice` only travel in the request to each source.  When all five sources
succeed and `n` is at most the number of merged products, the response is a
product list, each returned product is one that some source returned, and so
every returned product satisfies `minPrice ≤ price ≤ maxPrice` provided every
product returned by the sources does. -/
theorem handleCategories_bounds_of_sources (S : SliceSorter Product)
    (server : SourceRequest → HttpOutcome) (spare : Nat) (categoryName : String) (q : Query)
    (res : String → List Product)
    (h : ∀ c ∈ companies,
      fetchProducts server c categoryName (effectiveN q.n) q.minPrice q.maxPrice = .ok (res c))
    (hn : (effectiveN q.n).toNat ≤
      (res "AMZ" ++ res "FLP" ++ res "SNP" ++ res "MYN" ++ res "AZO").length) :
    ∃ products, (handleCategories S server spare categoryName q).1 = .json products ∧
      (∀ p ∈ products, ∃ c ∈ companies, p ∈ res c) ∧
      ((∀ c ∈ companies, ∀ p ∈ res c, q.minPrice ≤ p.Price ∧ p.Price ≤ q.maxPrice) →
        ∀ p ∈ products, q.minPrice ≤ p.Price ∧ p.Price ≤ q.maxPrice) := by
  have hloop := fetchLoop_companies server categoryName (effectiveN q.n) q.minPrice q.maxPrice
    res h
  have hperm := sortProducts_perm S
    (res "AMZ" ++ res "FLP" ++ res "SNP" ++ res "MYN" ++ res "AZO") q.sortBy q.sortOrder
  have hn' : (effectiveN q.n).toNat ≤
      (sortProducts S (res "AMZ" ++ res "FLP" ++ res "SNP" ++ res "MYN" ++ res "AZO")
        q.sortBy q.sortOrder).length := by
    rw [hperm.length_eq]
    exact hn
  have hsrc : ∀ p ∈ (sortProducts S
      (res "AMZ" ++ res "FLP" ++ res "SNP" ++ res "MYN" ++ res "AZO")
        q.sortBy q.sortOrder).take (effectiveN q.n).toNat, ∃ c ∈ companies, p ∈ res c := by
    intro p hp
    have hp' := hperm.mem_iff.mp (List.mem_of_mem_take hp)
    simp only [List.mem_append] at hp'
    simp only [companies, List.mem_cons, List.mem_singleton, exists_eq_or_imp, exists_eq_left,
      List.not_mem_nil, false_and, exists_false, or_false]
    tauto
  refine ⟨_, ?_, hsrc, ?_⟩
  · simp only [handleCategories, rankedProducts, hloop, sliceTo, if_pos hn']
  · intro hb p hp
    obtain ⟨c, hc, hpc⟩ := hsrc p hp
    exact hb c hc p hpc

theorem handleCategories_bounds_of_sources_witness :
    ((∀ c ∈ companies,
        fetchProducts sampleServer c "p" (effectiveN (some 2)) 10 50 =
          .ok ((fun c => if c = "AMZ" then sampleProducts else []) c)) ∧
      (effectiveN (some 2)).toNat ≤ (sampleProducts ++ [] ++ [] ++ [] ++ []).length) ∧
    ∃ products,
      (handleCategories (insertionSorter Product) sampleServer 0 "p"
        ⟨some 2, 10, 50, "", ""⟩).1 = .json products ∧
      (∀ p ∈ products, ∃ c ∈ companies,
        p ∈ (fun c => if c = "AMZ" then sampleProducts else []) c) ∧
      ((∀ c ∈ companies, ∀ p ∈ (fun c => if c = "AMZ" then sampleProducts else []) c,
          (10 : ℚ) ≤ p.Price ∧ p.Price ≤ 50) →
        ∀ p ∈ products, (10 : ℚ) ≤ p.Price ∧ p.Price ≤ 50) :=
  ⟨⟨by decide, by decide⟩,
    handleCategories_bounds_of_sources (insertionSorter Product) sampleServer 0 "p"
      ⟨some 2, 10, 50, "", ""⟩ (fun c => if c = "AMZ" then sampleProducts else [])
      (by decide) (by decide)⟩

/-- The top-N slice panics as soon as `n` exceeds the capacity of the ranked
collection. -/
theorem handleCategories_panics (S : SliceSorter Product) (server : SourceRequest → HttpOutcome)
    (spare : Nat) (categoryName : String) (q : Query) (ranked : List Product)
    (queried : List String)
    (hr : rankedProducts S server categoryName q = (.ok ranked, queried))
    (hn : ranked.length + spare < (effectiveN q.n).toNat) :
    handleCategories S server spare categoryName q = (.panic, queried) := by
  have h1 : ¬ ((effectiveN q.n).toNat ≤ ranked.length) := by omega
  have h2 : ¬ ((effectiveN q.n).toNat ≤ ranked.length + spare) := by omega
  simp only [handleCategories, hr, sliceTo, if_neg h1, if_neg h2]

/-- C1 at `n = 100` against the five sample products: whatever the unused
capacity of `allProducts`, the slice `allProducts[:100]` does not yield the five
products.  It panics unless the capacity reaches 100, and then the result has
100 entries, 95 of them zero values from beyond the end of the collection. -/
theorem handleCategories_slice_overrun :
    ∀ spare : Nat,
      (handleCategories (insertionSorter Product) sampleServer spare "p"
        ⟨some 100, 0, 0, "price", "asc"⟩).1 =
      if 95 ≤ spare then .json (sampleProducts ++ List.replicate 95 zeroProduct)
      else .panic := by
  intro spare
  have hr : rankedProducts (insertionSorter Product) sampleServer "p"
      ⟨some 100, 0, 0, "price", "asc"⟩ = (.ok sampleProducts, companies) := by decide
  have hlen : sampleProducts.length = 5 := by decide
  have he : (effectiveN (some 100)).toNat = 100 := by decide
  simp only [handleCategories, hr, he, sliceTo, hlen]
  by_cases hs : 95 ≤ spare
  · have h1 : ¬ (100 ≤ 5) := by omega
    have h2 : 100 ≤ 5 + spare := by omega
    simp only [if_neg h1, if_pos h2, if_pos hs]
  · have h1 : ¬ (100 ≤ 5) := by omega
    have h2 : ¬ (100 ≤ 5 + spare) := by omega
    simp only [if_neg h1, if_neg h2, if_neg hs]

end Question2

namespace Question1

/-! ## The sliding window -/

theorem updateWindow_length (numbers newNumbers : List Int) :
    (updateWindow numbers newNumbers).length = min 10 (numbers.length + newNumbers.length) := by
  simp only [updateWindow, window]
  split
  · rename_i h
    rw [List.length_append] at h
    rw [List.length_drop, List.length_append]
    omega
  · rename_i h
    rw [List.length_append] at h ⊢
    omega

/-- The window state after `handleNumbers` is the old one or an updated one. -/
theorem handleNumbers_state (numbers : List Int) (numberID : String) :
    (handleNumbers numbers numberID).2 = numbers ∨
    ∃ nums, (handleNumbers numbers numberID).2 = updateWindow numbers nums := by
  unfold handleNumbers
  split
  · exact Or.inl rfl
  · split
    · exact Or.inl rfl
    · rename_i nums _
      refine Or.inr ⟨nums, ?_⟩
      simp only
      split <;> rfl

/-- C10: after `updateWindow` the window is exactly the last
`min(10, len(old) + len(new))` elements of the old window followed by the new
numbers, in order, and has that length; hence no window state reachable through
`handleNumbers` holds more than 10 numbers. -/
theorem updateWindow_suffix :
    (∀ old new : List Int,
      updateWindow old new =
        (old ++ new).drop ((old ++ new).length - min 10 (old.length + new.length)) ∧
      (updateWindow old new).length = min 10 (old.length + new.length) ∧
      (updateWindow old new).length ≤ 10) ∧
    (∀ numbers, Reachable numbers → numbers.length ≤ 10) := by
  have hlen10 : ∀ old new : List Int, (updateWindow old new).length ≤ 10 := by
    intro old new
    rw [updateWindow_length]
    exact Nat.min_le_left _ _
  refine ⟨?_, ?_⟩
  · intro old new
    refine ⟨?_, updateWindow_length old new, hlen10 old new⟩
    simp only [updateWindow, window]
    split
    · rename_i h
      rw [List.length_append] at h ⊢
      have : min 10 (old.length + new.length) = 10 := by omega
      rw [this]
    · rename_i h
      rw [List.length_append] at h ⊢
      have : old.length + new.length - min 10 (old.length + new.length) = 0 := by omega
      rw [this, List.drop_zero]
  · intro numbers hreach
    induction hreach with
    | init => simp
    | step numbers numberID _ ih =>
      rcases handleNumbers_state numbers numberID with h | ⟨nums, h⟩
      · rw [h]; exact ih
      · rw [h]; exact hlen10 _ _

/-- What `handleNumbers` reports as `windowPrevState`: the part of the old window
that survives the eviction, which is the whole old window only when nothing is
evicted. -/
theorem updateWindow_prev (old nums : List Int) (hnums : nums.length ≤ 10) :
    (updateWindow old nums).take ((updateWindow old nums).length - nums.length) =
      old.drop (old.length + nums.length - 10) := by
  have hlen := updateWindow_length old nums
  rw [hlen]
  simp only [updateWindow, window]
  split
  · rename_i h
    rw [List.length_append] at h ⊢
    have hk : old.length + nums.length - 10 ≤ old.length := by omega
    rw [List.drop_append_of_le_length hk]
    have hl : (List.drop (old.length + nums.length - 10) old).length =
        min 10 (old.length + nums.length) - nums.length := by
      rw [List.length_drop]
      omega
    rw [← hl, List.take_left]
  · rename_i h
    rw [List.length_append] at h
    have h0 : old.length + nums.length - 10 = 0 := by omega
    have hm : min 10 (old.length + nums.length) - nums.length = old.length := by omega
    rw [h0, hm, List.drop_zero, List.take_left]

/-- C9 at a full window: the window `[2, 3, 5, 7, 11, 0, 1, 1, 2, 3]` is reached by
the requests `p` and `f`; the next request `e` reports
`windowPrevState = [0, 1, 1, 2, 3]`, the five survivors of the eviction, which is
not the window as it was before the request. -/
theorem handleNumbers_prevState_after_eviction :
    Reachable [2, 3, 5, 7, 11, 0, 1, 1, 2, 3] ∧
    handleNumbers [2, 3, 5, 7, 11, 0, 1, 1, 2, 3] "e" =
      (.json ⟨[2, 4, 6, 8, 10], [0, 1, 1, 2, 3], [0, 1, 1, 2, 3, 2, 4, 6, 8, 10]⟩,
        [0, 1, 1, 2, 3, 2, 4, 6, 8, 10]) ∧
    ([0, 1, 1, 2, 3] : List Int) ≠ [2, 3, 5, 7, 11, 0, 1, 1, 2, 3] := by
  refine ⟨?_, by decide, by decide⟩
  have h1 : Reachable (handleNumbers [] "p").2 := Reachable.step [] "p" Reachable.init
  have h2 : Reachable (handleNumbers (handleNumbers [] "p").2 "f").2 :=
    Reachable.step _ "f" h1
  have e : (handleNumbers (handleNumbers [] "p").2 "f").2 = [2, 3, 5, 7, 11, 0, 1, 1, 2, 3] := by
    decide
  rw [e] at h2
  exact h2

end Question1
